import Mathlib

/-
  Verification of the size-aware LRU cache in src/Challenge-1/Task-2/LRUCache.hpp.

  The cache keeps three coupled indices:
    - mElementList     (std::list, recency order: front = least recently used),
    - mElementMap      (std::map, key -> element),
    - mElementSizeMap  (std::multimap, size -> key, ascending by size, stable
                        within equal sizes because std::multimap::insert places
                        a new pair after its equal-size group),
  plus a running mTotalSize and four configuration values fixed at construction.

  The embedding below models the element list as a list of keys (each list node
  of the C++ holds a shared_ptr to the unique per-key element, so the key
  identifies the node), the std::map as an association list with unique keys,
  and the std::multimap as a list of (size, key) pairs kept in ascending size
  order with stable insertion.  The weak_ptr to the externally owned payload is
  modelled as a payload identifier together with a liveness flag saying whether
  lock() still succeeds.  Wall-clock time (std::time(nullptr)) is passed to each
  operation as an explicit integer argument.

  Places where the C++ has undefined behaviour (dereferencing rbegin() of an
  empty multimap; calling a method through the null shared_ptr that
  mElementMap.operator[] default-constructs for a key that is absent; erasing a
  dangling list iterator) are modelled as an explicit crash result.
-/

set_option linter.unusedVariables false

namespace LRUModel

/-- Model of LRUCacheElement (LRUCache.hpp lines 51-144): element size, last
access time, and the weak pointer to the externally owned payload, modelled as
a payload identifier plus a flag telling whether the weak pointer still locks. -/
structure LRUCacheElement where
  mElementSize : Int
  mLastAccessTime : Int
  payloadId : Nat
  payloadAlive : Bool
deriving Repr, DecidableEq

/-- Model of the LRUCache state (LRUCache.hpp lines 154-175): the three indices,
the running total size, and the four configuration values fixed by the
constructor (lines 229-243). -/
structure LRUCache where
  mElementList : List Nat
  mElementMap : List (Nat × LRUCacheElement)
  mElementSizeMap : List (Int × Nat)
  mTotalSize : Int
  mMaxSizeSoftLimit : Int
  mMaxSizeHardLimit : Int
  mTimeThresholdSec : Int
  mCleanScheduleIntervalMs : Int
deriving Repr, DecidableEq

/-- Lookup in mElementMap (std::map::find), first binding of the key. -/
def mapLookup : List (Nat × LRUCacheElement) → Nat → Option LRUCacheElement
  | [], _ => none
  | p :: rest, k => if p.1 = k then some p.2 else mapLookup rest k

/-- Erase from mElementMap (std::map::erase by key): removes the binding. -/
def mapErase : List (Nat × LRUCacheElement) → Nat → List (Nat × LRUCacheElement)
  | [], _ => []
  | p :: rest, k => if p.1 = k then rest else p :: mapErase rest k

/-- In-place mutation of the element stored for a key (the C++ mutates the
shared element object through the map's shared_ptr). -/
def mapSet : List (Nat × LRUCacheElement) → Nat → LRUCacheElement →
    List (Nat × LRUCacheElement)
  | [], _, _ => []
  | p :: rest, k, e => if p.1 = k then (k, e) :: rest else p :: mapSet rest k e

/-- Keys of mElementMap. -/
def mapKeys (m : List (Nat × LRUCacheElement)) : List Nat := m.map Prod.fst

/-- Sum of the sizes of the elements stored in mElementMap. -/
def sumSizes : List (Nat × LRUCacheElement) → Int
  | [] => 0
  | p :: rest => p.2.mElementSize + sumSizes rest

/-- Erase of one list node identified by its key (std::list::erase through the
stored iterator; each key occurs in at most one node). -/
def eraseKey : List Nat → Nat → List Nat
  | [], _ => []
  | x :: rest, k => if x = k then rest else x :: eraseKey rest k

/-- Insertion into mElementSizeMap (std::multimap::insert): the new pair goes
after every pair of less-than-or-equal size, keeping the list sorted by size
and stable within an equal-size group. -/
def sizeMapInsert : List (Int × Nat) → Int → Nat → List (Int × Nat)
  | [], sz, k => [(sz, k)]
  | p :: rest, sz, k => if sz < p.1 then (sz, k) :: p :: rest else p :: sizeMapInsert rest sz k

/-- First pair of mElementSizeMap with the given size (std::multimap::find,
which returns the leftmost equivalent pair). -/
def findPairOfSize : List (Int × Nat) → Int → Option (Int × Nat)
  | [], _ => none
  | p :: rest, sz => if p.1 = sz then some p else findPairOfSize rest sz

/-- Erase of the pair returned by std::multimap::find for the given size:
removes the first pair with that size, whatever its key; removes nothing when
no pair has that size.  This models lines 362-368 of cleanup and also the
erase of the first pair of the maximal-size group at line 347. -/
def eraseFirstOfSize : List (Int × Nat) → Int → List (Int × Nat)
  | [], _ => []
  | p :: rest, sz => if p.1 = sz then rest else p :: eraseFirstOfSize rest sz

/-- Erase used by updateElement (lines 288-295): scan the equal-size range for
the pair whose key matches, erase the first such pair if any. -/
def eraseSizeKey : List (Int × Nat) → Int → Nat → List (Int × Nat)
  | [], _, _ => []
  | p :: rest, sz, k => if p.1 = sz ∧ p.2 = k then rest else p :: eraseSizeKey rest sz k

/-- Locked section of LRUCache::updateElement (lines 270-310): reuse or create
the element for the key, refresh its size and access time, move it to the back
of the recency list, reinsert its size pair, and adjust mTotalSize.  On an
existing key the C++ keeps the old element object, so the stored weak pointer
(payloadId, payloadAlive) is kept and only size and timestamp change. -/
def updateLocked (s : LRUCache) (key pid : Nat) (alive : Bool) (size now : Int) : LRUCache :=
  match mapLookup s.mElementMap key with
  | none =>
    let e : LRUCacheElement :=
      { mElementSize := size, mLastAccessTime := now, payloadId := pid, payloadAlive := alive }
    { s with
      mElementMap := (key, e) :: s.mElementMap
      mElementList := s.mElementList ++ [key]
      mElementSizeMap := sizeMapInsert s.mElementSizeMap size key
      mTotalSize := s.mTotalSize + size }
  | some old =>
    let e := { old with mElementSize := size, mLastAccessTime := now }
    { s with
      mElementMap := mapSet s.mElementMap key e
      mElementList := eraseKey s.mElementList key ++ [key]
      mElementSizeMap := sizeMapInsert (eraseSizeKey s.mElementSizeMap old.mElementSize key) size key
      mTotalSize := s.mTotalSize - old.mElementSize + size }

/-- Result of a whole cleanup call: the final state with the payloads collected
for the deferred cleanup callbacks, or a crash at one of the undefined points. -/
inductive CleanupRes where
  | done (s : LRUCache) (cleaned : List Nat)
  | crash
deriving Repr, DecidableEq

/-- Result of one iteration of the cleanup loop. -/
inductive StepRes where
  | stop
  | next (s : LRUCache) (acc : List Nat)
  | crash
deriving Repr, DecidableEq

/-- Lines 373-385 of cleanup: erase the chosen key from mElementMap, then, only
when the chosen key is not the protected key, collect the payload (if the weak
pointer still locks) and subtract the chosen element's size from mTotalSize.
The state passed in already has the chosen entry removed from the recency list
and one size pair removed from the size index. -/
def purgeEntry (s : LRUCache) (acc : List Nat) (prot : Option Nat) (key : Nat)
    (e : LRUCacheElement) : StepRes :=
  let s1 := { s with mElementMap := mapErase s.mElementMap key }
  if prot = some key then .next s1 acc
  else
    .next { s1 with mTotalSize := s1.mTotalSize - e.mElementSize }
      (if e.payloadAlive then acc ++ [e.payloadId] else acc)

/-- One iteration of the while loop of LRUCache::cleanup (lines 331-386).
Stops when the list is empty or mTotalSize is at or below the soft limit.
Otherwise looks at the front (least recently used) element: if it is stale
(now minus its last access time exceeds the threshold) the victim is instead
the first pair of the maximal-size group of mElementSizeMap (lines 336-354),
else the front itself is popped (lines 357-371).  The crash results model the
undefined behaviour of rbegin() on an empty multimap, of calling through the
null shared_ptr that operator[] creates for a key missing from mElementMap,
and of erasing a dangling list iterator. -/
def cleanupStep (now : Int) (prot : Option Nat) (s : LRUCache) (acc : List Nat) : StepRes :=
  match s.mElementList with
  | [] => .stop
  | front :: rest =>
    if s.mTotalSize ≤ s.mMaxSizeSoftLimit then .stop
    else
      match mapLookup s.mElementMap front with
      | none => .crash
      | some fe =>
        if now - fe.mLastAccessTime > s.mTimeThresholdSec then
          match s.mElementSizeMap.getLast? with
          | none => .crash
          | some top =>
            match findPairOfSize s.mElementSizeMap top.1 with
            | none => .crash
            | some chosen =>
              match mapLookup s.mElementMap chosen.2 with
              | none => .crash
              | some ce =>
                if chosen.2 ∈ s.mElementList then
                  purgeEntry
                    { s with
                      mElementSizeMap := eraseFirstOfSize s.mElementSizeMap top.1
                      mElementList := eraseKey s.mElementList chosen.2 }
                    acc prot chosen.2 ce
                else .crash
        else
          purgeEntry
            { s with
              mElementList := rest
              mElementSizeMap := eraseFirstOfSize s.mElementSizeMap fe.mElementSize }
            acc prot front fe

/-- The cleanup while loop, driven by explicit fuel; the public entry point
passes enough fuel (every iteration removes a list node, see the lemmas on
cleanupStep), so running out of fuel (result none) never happens. -/
def cleanupLoop (now : Int) (prot : Option Nat) : Nat → LRUCache → List Nat → Option CleanupRes
  | 0, s, acc =>
    match cleanupStep now prot s acc with
    | .stop => some (.done s acc)
    | .crash => some CleanupRes.crash
    | .next _ _ => none
  | fuel + 1, s, acc =>
    match cleanupStep now prot s acc with
    | .stop => some (.done s acc)
    | .crash => some CleanupRes.crash
    | .next s1 acc1 => cleanupLoop now prot fuel s1 acc1

/-- LRUCache::cleanup (lines 322-394): run the eviction loop; the collected
payloads are the ones whose cleanup callback is invoked after the lock is
released (lines 390-393). -/
def cleanup (s : LRUCache) (now : Int) (prot : Option Nat) : Option CleanupRes :=
  cleanupLoop now prot (s.mElementList.length + s.mElementSizeMap.length) s []

/-- LRUCache::updateElement (lines 268-315): the locked mutation, then, after
the lock is released, a synchronous cleanup protecting the just-updated key
exactly when mTotalSize exceeds the hard limit. -/
def updateElement (s : LRUCache) (key pid : Nat) (alive : Bool) (size now : Int) :
    Option CleanupRes :=
  let s1 := updateLocked s key pid alive size now
  if s1.mTotalSize > s1.mMaxSizeHardLimit then cleanup s1 now (some key)
  else some (.done s1 [])

/-- LRUCache::getElement (lines 407-427): on a hit, refresh the access time,
splice the element to the back of the recency list and return the payload the
weak pointer locks to (none when the payload has already been released); on a
miss return none and leave the state unchanged. -/
def getElement (s : LRUCache) (key : Nat) (now : Int) : Option Nat × LRUCache :=
  match mapLookup s.mElementMap key with
  | none => (none, s)
  | some e =>
    let e1 := { e with mLastAccessTime := now }
    ((if e.payloadAlive then some e.payloadId else none),
     { s with
       mElementMap := mapSet s.mElementMap key e1
       mElementList := eraseKey s.mElementList key ++ [key] })

/-- Read accessor (lines 444-447). -/
def getSoftMaxSize (s : LRUCache) : Int := s.mMaxSizeSoftLimit

/-- Read accessor (lines 454-457). -/
def getMaxSize (s : LRUCache) : Int := s.mMaxSizeHardLimit

/-- Read accessor (lines 464-467). -/
def getTimeThreshold (s : LRUCache) : Int := s.mTimeThresholdSec

/-- Read accessor (lines 474-477). -/
def getCleaningInterval (s : LRUCache) : Int := s.mCleanScheduleIntervalMs

/-- The state built by the constructor (lines 229-243): empty indices, zero
total, the four configuration values as given. -/
def initCache (soft hard thr interval : Int) : LRUCache :=
  { mElementList := [], mElementMap := [], mElementSizeMap := [], mTotalSize := 0,
    mMaxSizeSoftLimit := soft, mMaxSizeHardLimit := hard,
    mTimeThresholdSec := thr, mCleanScheduleIntervalMs := interval }

/-- The public operations a caller can invoke, each carrying the wall-clock
time at which it runs. -/
inductive CacheOp where
  | update (key pid : Nat) (alive : Bool) (size now : Int)
  | get (key : Nat) (now : Int)
  | clean (prot : Option Nat) (now : Int)
deriving Repr, DecidableEq

/-- Apply one operation; none when the operation runs into the undefined
behaviour modelled by CleanupRes.crash. -/
def applyOp (s : LRUCache) : CacheOp → Option LRUCache
  | .update key pid alive size now =>
    match updateElement s key pid alive size now with
    | some (.done s1 _) => some s1
    | _ => none
  | .get key now => some (getElement s key now).2
  | .clean prot now =>
    match cleanup s now prot with
    | some (.done s1 _) => some s1
    | _ => none

/-- Apply a sequence of operations. -/
def applyOps : LRUCache → List CacheOp → Option LRUCache
  | s, [] => some s
  | s, op :: rest =>
    match applyOp s op with
    | some s1 => applyOps s1 rest
    | none => none

/-- States reachable from a given state by public operations. -/
inductive ReachableFrom (s0 : LRUCache) : LRUCache → Prop
  | refl : ReachableFrom s0 s0
  | step {s s1 : LRUCache} (op : CacheOp) :
      ReachableFrom s0 s → applyOp s op = some s1 → ReachableFrom s0 s1

/-- Phase of the background sweeper thread of runCleanerThreadLoop
(lines 191-202): still looping, or broken out of the loop. -/
inductive SweeperPhase where
  | running
  | exited
deriving Repr, DecidableEq

/-- What one sweeper iteration observes: whether the timed wait on the
condition variable ended by timeout (line 196), and the value of the
mIsFinished flag read at line 200. -/
structure SweeperObs where
  timedOut : Bool
  finishedFlag : Bool
deriving Repr, DecidableEq

/-- One iteration of the sweeper loop: cleanup() runs exactly when the wait
timed out (lines 196-199), then the shutdown flag is read and the loop breaks
when it is set (line 200).  Returns the next phase and whether cleanup ran in
this iteration; after the loop has exited nothing runs any more. -/
def sweeperIter : SweeperPhase → SweeperObs → SweeperPhase × Bool
  | .running, o => (if o.finishedFlag then .exited else .running, o.timedOut)
  | .exited, _ => (.exited, false)

/-- Phase after the sweeper has processed a list of observations. -/
def sweeperPhaseRun : SweeperPhase → List SweeperObs → SweeperPhase
  | ph, [] => ph
  | ph, o :: rest => sweeperPhaseRun (sweeperIter ph o).1 rest

/-- Per-iteration record of whether cleanup ran. -/
def sweeperCleanups : SweeperPhase → List SweeperObs → List Bool
  | _, [] => []
  | ph, o :: rest => (sweeperIter ph o).2 :: sweeperCleanups (sweeperIter ph o).1 rest

/-- Scenario of spec section 8, test A: soft 60, hard 100, threshold 5s, insert
A=0 (20), B=1 (20), C=2 (25) at time 0, then a manual cleanup at time 0 while
everything is fresh. -/
def scenarioAOps : List CacheOp :=
  [.update 0 100 true 20 0, .update 1 101 true 20 0, .update 2 102 true 25 0, .clean none 0]

/-- State reached by the three inserts of scenarios A and B, before the manual
cleanup: recency order 0, 1, 2 and total 65. -/
def scenarioAPre : LRUCache :=
  ⟨[0, 1, 2],
    [(2, ⟨25, 0, 102, true⟩), (1, ⟨20, 0, 101, true⟩), (0, ⟨20, 0, 100, true⟩)],
    [(20, 0), (20, 1), (25, 2)], 65, 60, 100, 5, 0⟩

/-- End state of scenario A: only the least recently used key 0 was evicted. -/
def scenarioAState : LRUCache :=
  ⟨[1, 2], [(2, ⟨25, 0, 102, true⟩), (1, ⟨20, 0, 101, true⟩)], [(20, 1), (25, 2)],
    45, 60, 100, 5, 0⟩

/-- Scenario of spec section 8, test B: same inserts, manual cleanup at time 10
when every entry is stale (10 - 0 > 5). -/
def scenarioBOps : List CacheOp :=
  [.update 0 100 true 20 0, .update 1 101 true 20 0, .update 2 102 true 25 0, .clean none 10]

/-- End state of scenario B: the largest entry, key 2 of size 25, was evicted. -/
def scenarioBState : LRUCache :=
  ⟨[0, 1], [(1, ⟨20, 0, 101, true⟩), (0, ⟨20, 0, 100, true⟩)], [(20, 0), (20, 1)],
    40, 60, 100, 5, 0⟩

/-- Operation sequence that desynchronizes the size index from the other two
indices: soft 45, insert keys 0 and 1 with equal size 40, touch key 0 so the
recency order no longer matches the size-index insertion order, then clean up
while fresh.  The fresh branch pops key 1 from the list but erases the first
size-40 pair, which belongs to key 0. -/
def driftOps : List CacheOp :=
  [.update 0 100 true 40 0, .update 1 101 true 40 0, .get 0 0, .clean none 0]

/-- State after driftOps: key 0 lives in the recency list and key map, but the
size index names only the already evicted key 1. -/
def driftState : LRUCache :=
  ⟨[0], [(0, ⟨40, 0, 100, true⟩)], [(40, 1)], 40, 45, 1000, 5, 0⟩

/-- driftOps followed by inserting a fresh key 2 of size 10, so that the next
cleanup at a stale time must consult the size index, whose maximal pair names
key 1 which is absent from the key map. -/
def crashOps : List CacheOp := driftOps ++ [.update 2 102 true 10 0]

/-- State after crashOps. -/
def crashState : LRUCache :=
  ⟨[0, 2], [(2, ⟨10, 0, 102, true⟩), (0, ⟨40, 0, 100, true⟩)], [(10, 2), (40, 1)],
    50, 45, 1000, 5, 0⟩

/-- driftOps followed by re-inserting key 1 with the smaller size 10: the stale
phantom pair (40, 1) still sits in the size index while key 1's entry now has
size 10. -/
def sizeDriftOps : List CacheOp := driftOps ++ [.update 1 101 true 10 0]

/-- State after sizeDriftOps. -/
def sizeDriftState : LRUCache :=
  ⟨[0, 1], [(1, ⟨10, 0, 101, true⟩), (0, ⟨40, 0, 100, true⟩)], [(10, 1), (40, 1)],
    50, 45, 1000, 5, 0⟩

/-- State after a stale cleanup on sizeDriftState at time 100: the stale branch
chose the maximal pair (40, 1) but evicted the size-10 entry now stored for
key 1, subtracting 10. -/
def sizeDriftPost : LRUCache :=
  ⟨[0], [(0, ⟨40, 0, 100, true⟩)], [(10, 1)], 40, 45, 1000, 5, 0⟩

/-- Sequence reaching a state on which a cleanup protecting key 1 evicts key 1
first (it sits at the recency front) while another pair of equal size 20,
inserted earlier, sits before key 1's pair in the size index. -/
def protectedPairOps : List CacheOp :=
  [.update 0 100 true 20 0, .update 1 101 true 20 0, .update 2 102 true 30 0,
   .get 2 0, .get 0 0]

/-- State after protectedPairOps: recency order 1, 2, 0 with total 70 over the
soft limit 40. -/
def protectedPairState : LRUCache :=
  ⟨[1, 2, 0],
    [(2, ⟨30, 0, 102, true⟩), (1, ⟨20, 0, 101, true⟩), (0, ⟨20, 0, 100, true⟩)],
    [(20, 0), (20, 1), (30, 2)], 70, 40, 1000, 5, 0⟩

/-- State after cleanup of protectedPairState at time 0 protecting key 1: the
protected key 1 is gone from the recency list and the key map, its size was
not subtracted, but its size pair (20, 1) is still in the size index because
the fresh branch erased the pair (20, 0) in its place. -/
def protectedPairPost : LRUCache :=
  ⟨[0], [(0, ⟨20, 0, 100, true⟩)], [(20, 1)], 40, 40, 1000, 5, 0⟩

/-- Accounting relation tying mTotalSize to the sum of stored sizes around a
cleanup call protecting key P whose entry has size sz: either P is still stored
and the total equals the stored sum, or P has been evicted (it is gone from the
recency list too) and the total exceeds the stored sum by exactly sz, because
the protected branch of cleanup skips the size subtraction. -/
def ProtAccount (P : Nat) (sz : Int) (s : LRUCache) : Prop :=
  ((∃ e, mapLookup s.mElementMap P = some e ∧ e.mElementSize = sz) ∧
    s.mTotalSize = sumSizes s.mElementMap)
  ∨ (mapLookup s.mElementMap P = none ∧ P ∉ s.mElementList ∧
      s.mTotalSize = sumSizes s.mElementMap + sz)

/-- A one-element cache with soft 50 and hard 100 holding key 0 of size 20. -/
def selfEvictMid : LRUCache :=
  ⟨[0], [(0, ⟨20, 0, 100, true⟩)], [(20, 0)], 20, 50, 100, 5, 0⟩

/-- State after updating key 0 of selfEvictMid to size 200: the update pushed
mTotalSize over the hard limit and the synchronous cleanup evicted every entry
including the protected, just-updated key 0, whose size was not subtracted. -/
def selfEvictPost : LRUCache := ⟨[], [], [], 200, 50, 100, 5, 0⟩

end LRUModel

namespace LRUModel

theorem mapLookup_isSome_iff {m : List (Nat × LRUCacheElement)} {k : Nat} :
    (mapLookup m k).isSome ↔ k ∈ mapKeys m := by
  induction m with
  | nil => simp [mapLookup, mapKeys]
  | cons p rest ih =>
    by_cases h : p.1 = k <;> simp [mapLookup, mapKeys, h, ih]
    exact fun hn => (h hn.symm).elim

theorem mapLookup_eq_none_iff {m : List (Nat × LRUCacheElement)} {k : Nat} :
    mapLookup m k = none ↔ k ∉ mapKeys m := by
  rw [← mapLookup_isSome_iff, Option.isSome_iff_ne_none]
  tauto

theorem mapErase_sublist (m : List (Nat × LRUCacheElement)) (k : Nat) :
    List.Sublist (mapErase m k) m := by
  induction m with
  | nil => simp [mapErase]
  | cons p rest ih =>
    by_cases h : p.1 = k
    · simp only [mapErase, if_pos h]
      exact List.sublist_cons_self p rest
    · simp only [mapErase, if_neg h]
      exact ih.cons₂ p

theorem mapKeys_mapErase_nodup {m : List (Nat × LRUCacheElement)} (k : Nat)
    (h : (mapKeys m).Nodup) : (mapKeys (mapErase m k)).Nodup :=
  ((mapErase_sublist m k).map Prod.fst).nodup h

theorem mapLookup_mapErase_self {m : List (Nat × LRUCacheElement)} {k : Nat}
    (h : (mapKeys m).Nodup) : mapLookup (mapErase m k) k = none := by
  induction m with
  | nil => simp [mapErase, mapLookup]
  | cons p rest ih =>
    simp only [mapKeys, List.map_cons, List.nodup_cons] at h
    by_cases hp : p.1 = k
    · simp only [mapErase, if_pos hp]
      rw [mapLookup_eq_none_iff]
      rw [hp] at h
      exact h.1
    · simp only [mapErase, if_neg hp, mapLookup, if_neg hp]
      exact ih h.2

theorem mapLookup_mapErase_ne {m : List (Nat × LRUCacheElement)} {k k' : Nat}
    (h : k' ≠ k) : mapLookup (mapErase m k) k' = mapLookup m k' := by
  induction m with
  | nil => simp [mapErase]
  | cons p rest ih =>
    by_cases hp : p.1 = k
    · simp only [mapErase, if_pos hp, mapLookup]
      rw [if_neg (by rw [hp]; exact fun hc => h hc.symm)]
    · simp only [mapErase, if_neg hp, mapLookup, ih]

theorem sumSizes_mapErase {m : List (Nat × LRUCacheElement)} {k : Nat}
    {e : LRUCacheElement} (hn : (mapKeys m).Nodup) (h : mapLookup m k = some e) :
    sumSizes (mapErase m k) = sumSizes m - e.mElementSize := by
  induction m with
  | nil => simp [mapLookup] at h
  | cons p rest ih =>
    simp only [mapKeys, List.map_cons, List.nodup_cons] at hn
    by_cases hp : p.1 = k
    · simp only [mapLookup, if_pos hp] at h
      cases h
      simp only [mapErase, if_pos hp, sumSizes]
      ring
    · simp only [mapLookup, if_neg hp] at h
      simp only [mapErase, if_neg hp, sumSizes, ih hn.2 h]
      ring

theorem mapLookup_mapSet_self {m : List (Nat × LRUCacheElement)} {k : Nat}
    (e : LRUCacheElement) (h : (mapLookup m k).isSome) :
    mapLookup (mapSet m k e) k = some e := by
  induction m with
  | nil => simp [mapLookup] at h
  | cons p rest ih =>
    by_cases hp : p.1 = k
    · simp [mapSet, hp, mapLookup]
    · simp only [mapLookup, if_neg hp] at h
      simp [mapSet, hp, mapLookup, ih h]

theorem mapKeys_mapSet (m : List (Nat × LRUCacheElement)) (k : Nat) (e : LRUCacheElement) :
    mapKeys (mapSet m k e) = mapKeys m := by
  induction m with
  | nil => simp [mapSet]
  | cons p rest ih =>
    by_cases hp : p.1 = k
    · simp only [mapSet, if_pos hp, mapKeys, List.map_cons]
      rw [hp]
    · simp only [mapSet, if_neg hp, mapKeys, List.map_cons] at ih ⊢
      rw [ih]

theorem mapLookup_mapSet_isSome {m : List (Nat × LRUCacheElement)} {k k' : Nat}
    (e : LRUCacheElement) (h : (mapLookup m k').isSome) :
    (mapLookup (mapSet m k e) k').isSome := by
  rw [mapLookup_isSome_iff, mapKeys_mapSet]
  exact mapLookup_isSome_iff.mp h

theorem eraseKey_sublist (l : List Nat) (k : Nat) : List.Sublist (eraseKey l k) l := by
  induction l with
  | nil => simp [eraseKey]
  | cons x rest ih =>
    by_cases h : x = k
    · simp only [eraseKey, if_pos h]
      exact List.sublist_cons_self x rest
    · simp only [eraseKey, if_neg h]
      exact ih.cons₂ x

theorem mem_eraseKey_of_ne {l : List Nat} {k k' : Nat} (h : k' ≠ k) :
    k' ∈ eraseKey l k ↔ k' ∈ l := by
  induction l with
  | nil => simp [eraseKey]
  | cons x rest ih =>
    by_cases hx : x = k
    · simp only [eraseKey, if_pos hx, List.mem_cons]
      rw [hx]
      tauto
    · simp [eraseKey, hx, List.mem_cons, ih]

theorem not_mem_eraseKey_self {l : List Nat} {k : Nat} (h : l.Nodup) :
    k ∉ eraseKey l k := by
  induction l with
  | nil => simp [eraseKey]
  | cons x rest ih =>
    simp only [List.nodup_cons] at h
    by_cases hx : x = k
    · simp only [eraseKey, if_pos hx]
      rw [hx] at h
      exact h.1
    · simp only [eraseKey, if_neg hx, List.mem_cons]
      rintro (rfl | hm)
      · exact hx rfl
      · exact ih h.2 hm

theorem eraseKey_cons_self (k : Nat) (rest : List Nat) :
    eraseKey (k :: rest) k = rest := by
  simp [eraseKey]

theorem findPairOfSize_spec {m : List (Int × Nat)} {sz : Int} {p : Int × Nat}
    (h : findPairOfSize m sz = some p) : p.1 = sz ∧ p ∈ m := by
  induction m with
  | nil => simp [findPairOfSize] at h
  | cons q rest ih =>
    by_cases hq : q.1 = sz
    · simp only [findPairOfSize, if_pos hq] at h
      cases h
      exact ⟨hq, List.mem_cons_self _ _⟩
    · simp only [findPairOfSize, if_neg hq] at h
      exact ⟨(ih h).1, List.mem_cons_of_mem q (ih h).2⟩

theorem getLast?_mem {α : Type} : ∀ {l : List α} {a : α}, l.getLast? = some a → a ∈ l
  | [], a, h => by simp at h
  | [x], a, h => by
    simp only [List.getLast?_singleton, Option.some.injEq] at h
    simp [h]
  | x :: y :: rest, a, h => by
    rw [List.getLast?_cons_cons] at h
    exact List.mem_cons_of_mem x (getLast?_mem h)

theorem pairwise_fst_le_getLast : ∀ {l : List (Int × Nat)} {a : Int × Nat},
    List.Pairwise (fun p q => p.1 ≤ q.1) l → l.getLast? = some a →
    ∀ p ∈ l, p.1 ≤ a.1
  | [], a, _, h, p, hp => by simp at hp
  | [x], a, _, h, p, hp => by
    simp only [List.getLast?_singleton, Option.some.injEq] at h
    simp only [List.mem_singleton] at hp
    rw [← h, hp]
  | x :: y :: rest, a, hpw, h, p, hp => by
    rw [List.getLast?_cons_cons] at h
    rcases List.mem_cons.mp hp with rfl | hmem
    · exact le_trans (le_refl p.1)
        ((List.pairwise_cons.mp hpw).1 a (getLast?_mem h))
    · exact pairwise_fst_le_getLast (List.pairwise_cons.mp hpw).2 h p hmem

theorem purgeEntry_next_inv {s s1 : LRUCache} {acc acc1 : List Nat} {prot : Option Nat}
    {k : Nat} {e : LRUCacheElement}
    (h : purgeEntry s acc prot k e = StepRes.next s1 acc1) :
    s1.mElementMap = mapErase s.mElementMap k ∧
    s1.mElementList = s.mElementList ∧
    s1.mElementSizeMap = s.mElementSizeMap ∧
    s1.mMaxSizeSoftLimit = s.mMaxSizeSoftLimit ∧
    s1.mMaxSizeHardLimit = s.mMaxSizeHardLimit ∧
    s1.mTimeThresholdSec = s.mTimeThresholdSec ∧
    s1.mCleanScheduleIntervalMs = s.mCleanScheduleIntervalMs ∧
    ((prot = some k ∧ s1.mTotalSize = s.mTotalSize ∧ acc1 = acc) ∨
     (prot ≠ some k ∧ s1.mTotalSize = s.mTotalSize - e.mElementSize ∧
       acc1 = if e.payloadAlive then acc ++ [e.payloadId] else acc)) := by
  unfold purgeEntry at h
  split at h
  · injection h with h1 h2
    subst h1
    subst h2
    refine ⟨rfl, rfl, rfl, rfl, rfl, rfl, rfl, Or.inl ⟨by assumption, rfl, rfl⟩⟩
  · injection h with h1 h2
    subst h1
    subst h2
    refine ⟨rfl, rfl, rfl, rfl, rfl, rfl, rfl, Or.inr ⟨by assumption, rfl, rfl⟩⟩

theorem cleanupStep_next_cases {now : Int} {prot : Option Nat} {s s1 : LRUCache}
    {acc acc1 : List Nat}
    (h : cleanupStep now prot s acc = StepRes.next s1 acc1) :
    ∃ c ce, mapLookup s.mElementMap c = some ce ∧ c ∈ s.mElementList ∧
      s1.mElementMap = mapErase s.mElementMap c ∧
      s1.mElementList = eraseKey s.mElementList c ∧
      s1.mMaxSizeSoftLimit = s.mMaxSizeSoftLimit ∧
      s1.mMaxSizeHardLimit = s.mMaxSizeHardLimit ∧
      s1.mTimeThresholdSec = s.mTimeThresholdSec ∧
      s1.mCleanScheduleIntervalMs = s.mCleanScheduleIntervalMs ∧
      ((prot = some c ∧ s1.mTotalSize = s.mTotalSize ∧ acc1 = acc) ∨
       (prot ≠ some c ∧ s1.mTotalSize = s.mTotalSize - ce.mElementSize ∧
         acc1 = if ce.payloadAlive then acc ++ [ce.payloadId] else acc)) := by
  unfold cleanupStep at h
  split at h
  · simp at h
  · rename_i front rest hlist
    split at h
    · simp at h
    · rename_i htot
      split at h
      · simp at h
      · rename_i fe hfe
        split at h
        · split at h
          · simp at h
          · rename_i top htop
            split at h
            · simp at h
            · rename_i chosen hfind
              split at h
              · simp at h
              · rename_i ce hce
                split at h
                · rename_i hmem
                  obtain ⟨hm, hl, hsm, hsoft, hhard, hthr, hint, hrest⟩ :=
                    purgeEntry_next_inv h
                  exact ⟨chosen.2, ce, hce, hmem, by simpa using hm, by simpa using hl,
                    by simpa using hsoft, by simpa using hhard, by simpa using hthr,
                    by simpa using hint, by simpa using hrest⟩
                · simp at h
        · obtain ⟨hm, hl, hsm, hsoft, hhard, hthr, hint, hrest⟩ := purgeEntry_next_inv h
          refine ⟨front, fe, hfe, ?_, by simpa using hm, ?_, by simpa using hsoft,
            by simpa using hhard, by simpa using hthr, by simpa using hint,
            by simpa using hrest⟩
          · rw [hlist]
            exact List.mem_cons_self _ _
          · rw [hlist, eraseKey_cons_self]
            simpa using hl

theorem cleanupStep_next_nodup {now : Int} {prot : Option Nat} {s s1 : LRUCache}
    {acc acc1 : List Nat}
    (hL : s.mElementList.Nodup) (hM : (mapKeys s.mElementMap).Nodup)
    (h : cleanupStep now prot s acc = StepRes.next s1 acc1) :
    s1.mElementList.Nodup ∧ (mapKeys s1.mElementMap).Nodup := by
  obtain ⟨c, ce, _, _, hm, hl, _⟩ := cleanupStep_next_cases h
  constructor
  · rw [hl]
    exact (eraseKey_sublist _ _).nodup hL
  · rw [hm]
    exact mapKeys_mapErase_nodup c hM

theorem cleanupLoop_done_config {now : Int} {prot : Option Nat} :
    ∀ (fuel : Nat) (s : LRUCache) (acc : List Nat) {s1 : LRUCache} {cl : List Nat},
    cleanupLoop now prot fuel s acc = some (CleanupRes.done s1 cl) →
    s1.mMaxSizeSoftLimit = s.mMaxSizeSoftLimit ∧
    s1.mMaxSizeHardLimit = s.mMaxSizeHardLimit ∧
    s1.mTimeThresholdSec = s.mTimeThresholdSec ∧
    s1.mCleanScheduleIntervalMs = s.mCleanScheduleIntervalMs := by
  intro fuel
  induction fuel with
  | zero =>
    intro s acc s1 cl h
    unfold cleanupLoop at h
    split at h
    · simp only [Option.some.injEq, CleanupRes.done.injEq] at h
      obtain ⟨rfl, rfl⟩ := h
      exact ⟨rfl, rfl, rfl, rfl⟩
    · simp at h
    · simp at h
  | succ fuel ih =>
    intro s acc s1 cl h
    unfold cleanupLoop at h
    split at h
    · simp only [Option.some.injEq, CleanupRes.done.injEq] at h
      obtain ⟨rfl, rfl⟩ := h
      exact ⟨rfl, rfl, rfl, rfl⟩
    · simp at h
    · rename_i s2 acc2 hstep
      obtain ⟨h1, h2, h3, h4⟩ := ih s2 acc2 h
      obtain ⟨c, ce, _, _, _, _, g1, g2, g3, g4, _⟩ := cleanupStep_next_cases hstep
      exact ⟨h1.trans g1, h2.trans g2, h3.trans g3, h4.trans g4⟩

theorem cleanupStep_protAccount {now : Int} {P : Nat} {sz : Int} {s s1 : LRUCache}
    {acc acc1 : List Nat}
    (hL : s.mElementList.Nodup) (hM : (mapKeys s.mElementMap).Nodup)
    (hInv : ProtAccount P sz s)
    (h : cleanupStep now (some P) s acc = StepRes.next s1 acc1) :
    ProtAccount P sz s1 := by
  obtain ⟨c, ce, hce, hcl, hm, hl, _, _, _, _, hdisj⟩ := cleanupStep_next_cases h
  rcases hdisj with ⟨hpc, htot, hacc⟩ | ⟨hpc, htot, hacc⟩
  · have hPc : P = c := by injection hpc
    subst hPc
    rcases hInv with ⟨⟨e, hPe, hesz⟩, hsum⟩ | ⟨hPnone, hPl, hsum⟩
    · have hceE : ce = e := by
        rw [hce] at hPe
        injection hPe
      right
      refine ⟨?_, ?_, ?_⟩
      · rw [hm]
        exact mapLookup_mapErase_self hM
      · rw [hl]
        exact not_mem_eraseKey_self hL
      · rw [htot, hsum, hm, sumSizes_mapErase hM hce, hceE, hesz]
        ring
    · rw [hPnone] at hce
      simp at hce
  · have hcP : c ≠ P := fun hh => hpc (by rw [hh])
    rcases hInv with ⟨⟨e, hPe, hesz⟩, hsum⟩ | ⟨hPnone, hPl, hsum⟩
    · left
      refine ⟨⟨e, ?_, hesz⟩, ?_⟩
      · rw [hm, mapLookup_mapErase_ne (Ne.symm hcP)]
        exact hPe
      · rw [htot, hsum, hm, sumSizes_mapErase hM hce]
    · right
      refine ⟨?_, ?_, ?_⟩
      · rw [hm, mapLookup_mapErase_ne (Ne.symm hcP)]
        exact hPnone
      · rw [hl]
        intro hmem
        exact hPl ((mem_eraseKey_of_ne (Ne.symm hcP)).mp hmem)
      · rw [htot, hsum, hm, sumSizes_mapErase hM hce]
        ring

theorem cleanupLoop_protAccount {now : Int} {P : Nat} {sz : Int} :
    ∀ (fuel : Nat) (s : LRUCache) (acc : List Nat) {s1 : LRUCache} {cl : List Nat},
    s.mElementList.Nodup → (mapKeys s.mElementMap).Nodup → ProtAccount P sz s →
    cleanupLoop now (some P) fuel s acc = some (CleanupRes.done s1 cl) →
    ProtAccount P sz s1 := by
  intro fuel
  induction fuel with
  | zero =>
    intro s acc s1 cl hL hM hInv h
    unfold cleanupLoop at h
    split at h
    · simp only [Option.some.injEq, CleanupRes.done.injEq] at h
      obtain ⟨rfl, rfl⟩ := h
      exact hInv
    · simp at h
    · simp at h
  | succ fuel ih =>
    intro s acc s1 cl hL hM hInv h
    unfold cleanupLoop at h
    split at h
    · simp only [Option.some.injEq, CleanupRes.done.injEq] at h
      obtain ⟨rfl, rfl⟩ := h
      exact hInv
    · simp at h
    · rename_i s2 acc2 hstep
      obtain ⟨hL2, hM2⟩ := cleanupStep_next_nodup hL hM hstep
      exact ih s2 acc2 hL2 hM2 (cleanupStep_protAccount hL hM hInv hstep) h

theorem updateLocked_config (s : LRUCache) (key pid : Nat) (alive : Bool) (size now : Int) :
    (updateLocked s key pid alive size now).mMaxSizeSoftLimit = s.mMaxSizeSoftLimit ∧
    (updateLocked s key pid alive size now).mMaxSizeHardLimit = s.mMaxSizeHardLimit ∧
    (updateLocked s key pid alive size now).mTimeThresholdSec = s.mTimeThresholdSec ∧
    (updateLocked s key pid alive size now).mCleanScheduleIntervalMs =
      s.mCleanScheduleIntervalMs := by
  unfold updateLocked
  split
  · exact ⟨rfl, rfl, rfl, rfl⟩
  · exact ⟨rfl, rfl, rfl, rfl⟩

theorem updateLocked_lookup_isSome {s : LRUCache} {k' : Nat}
    (key pid : Nat) (alive : Bool) (size now : Int)
    (h : (mapLookup s.mElementMap k').isSome) :
    (mapLookup (updateLocked s key pid alive size now).mElementMap k').isSome := by
  unfold updateLocked
  split
  · simp only [mapLookup]
    split
    · simp
    · exact h
  · exact mapLookup_mapSet_isSome _ h

theorem updateLocked_lookup_new (s : LRUCache) (key pid : Nat) (alive : Bool)
    (size now : Int) :
    ∃ e, mapLookup (updateLocked s key pid alive size now).mElementMap key = some e ∧
      e.mElementSize = size ∧ e.mLastAccessTime = now := by
  unfold updateLocked
  split
  · exact ⟨⟨size, now, pid, alive⟩, by simp [mapLookup], rfl, rfl⟩
  · rename_i old hold
    exact ⟨⟨size, now, old.payloadId, old.payloadAlive⟩,
      mapLookup_mapSet_self _ (by rw [hold]; rfl), rfl, rfl⟩

theorem applyOp_config {s s1 : LRUCache} {op : CacheOp} (h : applyOp s op = some s1) :
    s1.mMaxSizeSoftLimit = s.mMaxSizeSoftLimit ∧
    s1.mMaxSizeHardLimit = s.mMaxSizeHardLimit ∧
    s1.mTimeThresholdSec = s.mTimeThresholdSec ∧
    s1.mCleanScheduleIntervalMs = s.mCleanScheduleIntervalMs := by
  cases op with
  | update key pid alive size now =>
    simp only [applyOp] at h
    split at h
    · rename_i s2 cl hupd
      injection h with h'
      subst h'
      simp only [updateElement] at hupd
      split at hupd
      · unfold cleanup at hupd
        have hc := cleanupLoop_done_config _ _ _ hupd
        have hu := updateLocked_config s key pid alive size now
        exact ⟨hc.1.trans hu.1, hc.2.1.trans hu.2.1, hc.2.2.1.trans hu.2.2.1,
          hc.2.2.2.trans hu.2.2.2⟩
      · injection hupd with h1
        injection h1 with h2 h3
        rw [← h2]
        exact updateLocked_config s key pid alive size now
    · simp at h
  | get key now =>
    simp only [applyOp] at h
    injection h with h'
    subst h'
    unfold getElement
    split
    · exact ⟨rfl, rfl, rfl, rfl⟩
    · exact ⟨rfl, rfl, rfl, rfl⟩
  | clean prot now =>
    simp only [applyOp] at h
    split at h
    · rename_i s2 cl hcl
      injection h with h'
      subst h'
      unfold cleanup at hcl
      exact cleanupLoop_done_config _ _ _ hcl
    · simp at h

theorem reachableFrom_head {s0 s1 s : LRUCache} {op : CacheOp}
    (hop : applyOp s0 op = some s1) (h : ReachableFrom s1 s) : ReachableFrom s0 s := by
  induction h with
  | refl => exact ReachableFrom.step op ReachableFrom.refl hop
  | step op2 hr hap ih => exact ReachableFrom.step op2 ih hap

theorem reachable_of_applyOps : ∀ (ops : List CacheOp) (s0 s : LRUCache),
    applyOps s0 ops = some s → ReachableFrom s0 s := by
  intro ops
  induction ops with
  | nil =>
    intro s0 s h
    injection h with h'
    rw [← h']
    exact ReachableFrom.refl
  | cons op rest ih =>
    intro s0 s h
    simp only [applyOps] at h
    split at h
    · rename_i s1 hop
      exact reachableFrom_head hop (ih s1 s h)
    · simp at h

theorem sweeperPhaseRun_exited : ∀ l, sweeperPhaseRun SweeperPhase.exited l =
    SweeperPhase.exited := by
  intro l
  induction l with
  | nil => rfl
  | cons o rest ih => simpa [sweeperPhaseRun, sweeperIter] using ih

theorem sweeperCleanups_exited : ∀ l, ∀ b ∈ sweeperCleanups SweeperPhase.exited l,
    b = false := by
  intro l
  induction l with
  | nil => simp [sweeperCleanups]
  | cons o rest ih =>
    intro b hb
    simp only [sweeperCleanups, sweeperIter, List.mem_cons] at hb
    rcases hb with rfl | hb
    · rfl
    · exact ih b hb

theorem sweeperPhaseRun_append : ∀ (l1 l2 : List SweeperObs) (ph : SweeperPhase),
    sweeperPhaseRun ph (l1 ++ l2) = sweeperPhaseRun (sweeperPhaseRun ph l1) l2 := by
  intro l1
  induction l1 with
  | nil => intro l2 ph; rfl
  | cons o rest ih =>
    intro l2 ph
    simp only [List.cons_append, sweeperPhaseRun]
    exact ih l2 (sweeperIter ph o).1

/-- Claim C9: in every execution of the sweeper loop (runCleanerThreadLoop),
once an iteration observes the shutdown flag set, the loop is exited, and no
later observation makes cleanup run again: every cleanup record after that
point is false. -/
theorem claim_C9 (l1 : List SweeperObs) (o : SweeperObs) (l2 : List SweeperObs)
    (hfin : o.finishedFlag = true) :
    sweeperPhaseRun SweeperPhase.running (l1 ++ [o]) = SweeperPhase.exited ∧
    ∀ b ∈ sweeperCleanups (sweeperPhaseRun SweeperPhase.running (l1 ++ [o])) l2,
      b = false := by
  have hex : sweeperPhaseRun SweeperPhase.running (l1 ++ [o]) = SweeperPhase.exited := by
    rw [sweeperPhaseRun_append]
    cases hph : sweeperPhaseRun SweeperPhase.running l1 with
    | running => simp [sweeperPhaseRun, sweeperIter, hfin]
    | exited => exact sweeperPhaseRun_exited [o]
  refine ⟨hex, ?_⟩
  rw [hex]
  exact sweeperCleanups_exited l2

/-- Witness for claim C9 at a concrete observation sequence: one timed-out
iteration, then an iteration that observes the flag, then two further wakeups
that trigger nothing. -/
theorem claim_C9_witness :
    sweeperPhaseRun SweeperPhase.running [⟨true, false⟩, ⟨false, true⟩] =
      SweeperPhase.exited ∧
    ∀ b ∈ sweeperCleanups
      (sweeperPhaseRun SweeperPhase.running [⟨true, false⟩, ⟨false, true⟩])
      [⟨true, false⟩, ⟨true, true⟩], b = false :=
  claim_C9 [⟨true, false⟩] ⟨false, true⟩ [⟨true, false⟩, ⟨true, true⟩] rfl

/-- Claim C10: the four configuration values fixed at construction are never
modified by update, get or cleanup: in every reachable state the read
accessors still return the constructor arguments. -/
theorem claim_C10 (soft hard thr itv : Int) (s : LRUCache)
    (h : ReachableFrom (initCache soft hard thr itv) s) :
    getSoftMaxSize s = soft ∧ getMaxSize s = hard ∧
    getTimeThreshold s = thr ∧ getCleaningInterval s = itv := by
  induction h with
  | refl => exact ⟨rfl, rfl, rfl, rfl⟩
  | step op hreach happ ih =>
    obtain ⟨h1, h2, h3, h4⟩ := applyOp_config happ
    exact ⟨h1.trans ih.1, h2.trans ih.2.1, h3.trans ih.2.2.1, h4.trans ih.2.2.2⟩

/-- Witness for claim C10: the state reached by scenario A still reports the
constructor arguments 60, 100, 5, 0. -/
theorem claim_C10_witness :
    getSoftMaxSize scenarioAState = 60 ∧ getMaxSize scenarioAState = 100 ∧
    getTimeThreshold scenarioAState = 5 ∧ getCleaningInterval scenarioAState = 0 :=
  claim_C10 60 100 5 0 scenarioAState
    (reachable_of_applyOps scenarioAOps (initCache 60 100 5 0) scenarioAState (by decide))

/-- Claim C3, evaluation of the code at the failing input: after driftOps
(insert 0 and 1 with equal size 40, get 0, cleanup while fresh), key 0 is in
the Recency Index and the Key Index but not in the Size Index, while the
evicted key 1 is recorded only in the Size Index: the three key sets are not
identical, refuting the invariant.  The fresh branch of cleanup popped key 1
but erased the size pair of key 0, the first pair carrying size 40. -/
theorem claim_C3_eval :
    applyOps (initCache 45 1000 5 0) driftOps = some driftState ∧
    0 ∈ driftState.mElementList ∧
    (mapLookup driftState.mElementMap 0).isSome ∧
    0 ∉ driftState.mElementSizeMap.map Prod.snd ∧
    1 ∈ driftState.mElementSizeMap.map Prod.snd ∧
    mapLookup driftState.mElementMap 1 = none ∧
    1 ∉ driftState.mElementList := by decide

/-- Claim C4, evaluation of the code at the failing input: after crashOps the
size index still names the evicted key 1, so a cleanup at time 100 (all
entries stale, total 50 over the soft limit 45) takes the stale branch, finds
the maximal pair (40, 1), and looks key 1 up in the Key Index where it is
absent; the C++ operator[] then yields a null element pointer whose method
call is undefined behaviour, so cleanup does not terminate in a state with
totalSize at or below the soft limit or an empty Recency Index. -/
theorem claim_C4_eval :
    applyOps (initCache 45 1000 5 0) crashOps = some crashState ∧
    cleanup crashState 100 none = some CleanupRes.crash := by decide

/-- Claim C6: after the locked index mutation of updateElement, cleanup runs
synchronously with the just-updated key as the protected key exactly when
mTotalSize exceeds the hard limit; at or below the hard limit the update does
not evict: its result is the locked mutation itself with no collected cleanup
callbacks, and every previously present key is still present. -/
theorem claim_C6 (s : LRUCache) (key pid : Nat) (alive : Bool) (size now : Int) :
    ((updateLocked s key pid alive size now).mTotalSize ≤ s.mMaxSizeHardLimit →
      updateElement s key pid alive size now =
        some (CleanupRes.done (updateLocked s key pid alive size now) []) ∧
      ∀ k', (mapLookup s.mElementMap k').isSome →
        (mapLookup (updateLocked s key pid alive size now).mElementMap k').isSome) ∧
    ((updateLocked s key pid alive size now).mTotalSize > s.mMaxSizeHardLimit →
      updateElement s key pid alive size now =
        cleanup (updateLocked s key pid alive size now) now (some key)) := by
  have hconf := updateLocked_config s key pid alive size now
  constructor
  · intro h
    have hno : ¬ ((updateLocked s key pid alive size now).mTotalSize >
        (updateLocked s key pid alive size now).mMaxSizeHardLimit) := by
      rw [hconf.2.1]
      exact not_lt.mpr h
    refine ⟨?_, fun k' hk' => updateLocked_lookup_isSome key pid alive size now hk'⟩
    simp only [updateElement]
    rw [if_neg hno]
  · intro h
    have hyes : (updateLocked s key pid alive size now).mTotalSize >
        (updateLocked s key pid alive size now).mMaxSizeHardLimit := by
      rw [hconf.2.1]
      exact h
    simp only [updateElement]
    rw [if_pos hyes]

/-- Witness for claim C6: inserting key 1 of size 10 into the one-element
cache keeps the total at 30, below the hard limit 100, so no cleanup runs. -/
theorem claim_C6_witness :
    updateElement selfEvictMid 1 101 true 10 0 =
      some (CleanupRes.done (updateLocked selfEvictMid 1 101 true 10 0) []) ∧
    ∀ k', (mapLookup selfEvictMid.mElementMap k').isSome →
      (mapLookup (updateLocked selfEvictMid 1 101 true 10 0).mElementMap k').isSome :=
  (claim_C6 selfEvictMid 1 101 true 10 0).1 (by decide)

/-- Claim C7: in every cleanup iteration whose head is not stale, the evicted
entry is exactly the head of the Recency Index: the new recency list is the
tail and the head key leaves the Key Index; and scenario A holds: inserting
sizes 20, 20, 25 under soft limit 60 and cleaning up while fresh evicts only
the least recently used key 0, leaving keys 1 and 2 with total 45. -/
theorem claim_C7 :
    (∀ (now : Int) (prot : Option Nat) (s s1 : LRUCache) (acc acc1 : List Nat)
      (front : Nat) (rest : List Nat) (fe : LRUCacheElement),
      s.mElementList = front :: rest →
      mapLookup s.mElementMap front = some fe →
      ¬ (now - fe.mLastAccessTime > s.mTimeThresholdSec) →
      (mapKeys s.mElementMap).Nodup →
      cleanupStep now prot s acc = StepRes.next s1 acc1 →
      s1.mElementList = rest ∧ mapLookup s1.mElementMap front = none) ∧
    (applyOps (initCache 60 100 5 0) scenarioAOps = some scenarioAState ∧
     scenarioAState.mTotalSize = 45 ∧
     mapLookup scenarioAState.mElementMap 0 = none ∧
     scenarioAState.mElementList = [1, 2]) := by
  constructor
  · intro now prot s s1 acc acc1 front rest fe hlist hfe hfresh hM hstep
    unfold cleanupStep at hstep
    simp only [hlist, hfe, if_neg hfresh] at hstep
    split at hstep
    · simp at hstep
    · obtain ⟨hm, hl, _, _, _, _, _, _⟩ := purgeEntry_next_inv hstep
      constructor
      · simpa using hl
      · have h2 : s1.mElementMap = mapErase s.mElementMap front := by simpa using hm
        rw [h2]
        exact mapLookup_mapErase_self hM
  · decide

/-- Witness for claim C7: the single fresh iteration of scenario A evicts the
head key 0 and nothing else. -/
theorem claim_C7_witness :
    scenarioAState.mElementList = [1, 2] ∧
    mapLookup scenarioAState.mElementMap 0 = none :=
  claim_C7.1 0 none scenarioAPre scenarioAState [] [100] 0 [1, 2] ⟨20, 0, 100, true⟩
    (by decide) (by decide) (by decide) (by decide) (by decide)

/-- Claim C2 (amended): in every cleanup iteration whose head is stale, the
evicted entry is the one named by the first pair of the maximal-size group of
the Size Index; that pair carries the largest size present in the Size Index
(the index being sorted by size), though after index drift the evicted entry's
own recorded size can be smaller; and scenario B holds: with all entries stale
the cleanup evicts the largest entry, key 2 of size 25, leaving total 40. -/
theorem claim_C2 :
    (∀ (now : Int) (prot : Option Nat) (s s1 : LRUCache) (acc acc1 : List Nat)
      (front : Nat) (rest : List Nat) (fe : LRUCacheElement) (top chosen : Int × Nat)
      (ce : LRUCacheElement),
      s.mElementList = front :: rest →
      mapLookup s.mElementMap front = some fe →
      now - fe.mLastAccessTime > s.mTimeThresholdSec →
      s.mElementSizeMap.getLast? = some top →
      findPairOfSize s.mElementSizeMap top.1 = some chosen →
      mapLookup s.mElementMap chosen.2 = some ce →
      chosen.2 ∈ s.mElementList →
      (mapKeys s.mElementMap).Nodup →
      List.Pairwise (fun p q => p.1 ≤ q.1) s.mElementSizeMap →
      cleanupStep now prot s acc = StepRes.next s1 acc1 →
      mapLookup s1.mElementMap chosen.2 = none ∧
      s1.mElementList = eraseKey s.mElementList chosen.2 ∧
      chosen.1 = top.1 ∧ (∀ p ∈ s.mElementSizeMap, p.1 ≤ chosen.1)) ∧
    (applyOps (initCache 60 100 5 0) scenarioBOps = some scenarioBState ∧
     scenarioBState.mTotalSize = 40 ∧
     mapLookup scenarioBState.mElementMap 2 = none ∧
     scenarioBState.mElementList = [0, 1]) := by
  constructor
  · intro now prot s s1 acc acc1 front rest fe top chosen ce hlist hfe hstale htop
      hfind hce hmem hM hpw hstep
    have hmem' : chosen.2 ∈ front :: rest := by
      rw [← hlist]
      exact hmem
    unfold cleanupStep at hstep
    simp only [hlist, hfe, if_pos hstale, htop, hfind, hce, if_pos hmem'] at hstep
    split at hstep
    · simp at hstep
    · obtain ⟨hm, hl, _, _, _, _, _, _⟩ := purgeEntry_next_inv hstep
      have hspec := findPairOfSize_spec hfind
      refine ⟨?_, ?_, hspec.1, ?_⟩
      · have h2 : s1.mElementMap = mapErase s.mElementMap chosen.2 := by simpa using hm
        rw [h2]
        exact mapLookup_mapErase_self hM
      · have h3 : s1.mElementList = eraseKey (front :: rest) chosen.2 := by simpa using hl
        rw [h3, hlist]
      · intro p hp
        rw [hspec.1]
        exact pairwise_fst_le_getLast hpw htop p hp
  · decide

/-- Witness for claim C2 at the stale iteration of scenario B: the evicted key
is 2, named by the maximal pair (25, 2), and 25 bounds every size present. -/
theorem claim_C2_witness :
    mapLookup scenarioBState.mElementMap 2 = none ∧
    scenarioBState.mElementList = eraseKey scenarioAPre.mElementList 2 ∧
    (25 : Int) = 25 ∧ (∀ p ∈ scenarioAPre.mElementSizeMap, p.1 ≤ (25 : Int)) :=
  claim_C2.1 10 none scenarioAPre scenarioBState [] [102] 0 [1, 2] ⟨20, 0, 100, true⟩
    (25, 2) (25, 2) ⟨25, 0, 102, true⟩ (by decide) (by decide) (by decide) (by decide)
    (by decide) (by decide) (by decide) (by decide) (by decide) (by decide)

/-- Counterexample to claim C2 as stated: on the reachable state after
sizeDriftOps, the head (key 0, last accessed at 0) is stale at time 100 and
the largest size present in the Size Index is 40, yet the iteration evicts the
entry stored for key 1, whose size is 10, not an entry whose size is the
largest current size: the total drops by 10 and 10 is not 40. -/
theorem claim_C2_counterexample :
    applyOps (initCache 45 1000 5 0) sizeDriftOps = some sizeDriftState ∧
    mapLookup sizeDriftState.mElementMap 0 = some ⟨40, 0, 100, true⟩ ∧
    (100 : Int) - 0 > sizeDriftState.mTimeThresholdSec ∧
    sizeDriftState.mElementSizeMap.getLast? = some (40, 1) ∧
    mapLookup sizeDriftState.mElementMap 1 = some ⟨10, 0, 101, true⟩ ∧
    cleanup sizeDriftState 100 none = some (CleanupRes.done sizeDriftPost [101]) ∧
    mapLookup sizeDriftPost.mElementMap 1 = none ∧
    sizeDriftPost.mTotalSize = sizeDriftState.mTotalSize - 10 ∧
    ¬ (10 : Int) = 40 := by decide

/-- Claim C1 (amended): when a cleanup iteration chooses the protected key,
the entry leaves the Key Index and the Recency Index (though one size pair
with its size, possibly another key's, is what leaves the Size Index), the
payload is not collected for a cleanup callback and mTotalSize is unchanged;
consequently a whole cleanup call that starts with exact accounting and evicts
the protected key ends with the protected key in neither list index and with
mTotalSize exceeding the sum of the remaining entries' sizes by exactly the
protected entry's size. -/
theorem claim_C1 :
    (∀ (now : Int) (P : Nat) (s s1 : LRUCache) (acc acc1 : List Nat),
      (mapKeys s.mElementMap).Nodup →
      (mapLookup s.mElementMap P).isSome →
      cleanupStep now (some P) s acc = StepRes.next s1 acc1 →
      mapLookup s1.mElementMap P = none →
      s1.mTotalSize = s.mTotalSize ∧ acc1 = acc) ∧
    (∀ (now : Int) (P : Nat) (s : LRUCache) (e : LRUCacheElement) (s1 : LRUCache)
      (cl : List Nat),
      s.mElementList.Nodup → (mapKeys s.mElementMap).Nodup →
      mapLookup s.mElementMap P = some e →
      s.mTotalSize = sumSizes s.mElementMap →
      cleanup s now (some P) = some (CleanupRes.done s1 cl) →
      mapLookup s1.mElementMap P = none →
      P ∉ s1.mElementList ∧
      s1.mTotalSize = sumSizes s1.mElementMap + e.mElementSize) := by
  constructor
  · intro now P s s1 acc acc1 hM hsome hstep hnone
    obtain ⟨c, ce, hce, hcl, hm, hl, _, _, _, _, hdisj⟩ := cleanupStep_next_cases hstep
    rcases hdisj with ⟨hpc, htot, hacc⟩ | ⟨hpc, htot, hacc⟩
    · exact ⟨htot, hacc⟩
    · exfalso
      have hcP : c ≠ P := fun hh => hpc (by rw [hh])
      rw [hm, mapLookup_mapErase_ne (Ne.symm hcP)] at hnone
      rw [hnone] at hsome
      simp at hsome
  · intro now P s e s1 cl hL hM he hsum hclean hnone
    unfold cleanup at hclean
    have hacct := cleanupLoop_protAccount _ s [] hL hM
      (Or.inl ⟨⟨e, he, rfl⟩, hsum⟩) hclean
    rcases hacct with ⟨⟨e', he', _⟩, _⟩ | ⟨_, hPl, hs1⟩
    · rw [hnone] at he'
      simp at he'
    · exact ⟨hPl, hs1⟩

/-- Witness for claim C1: cleaning up protectedPairState while protecting
key 1 evicts it without subtracting its size, and afterwards the total 40
exceeds the remaining sum 20 by the protected entry's size 20. -/
theorem claim_C1_witness :
    1 ∉ protectedPairPost.mElementList ∧
    protectedPairPost.mTotalSize =
      sumSizes protectedPairPost.mElementMap + (20 : Int) :=
  claim_C1.2 0 1 protectedPairState ⟨20, 0, 101, true⟩ protectedPairPost [102]
    (by decide) (by decide) (by decide) (by decide) (by decide) (by decide)

/-- Counterexample to claim C1 as stated: on the reachable protectedPairState,
cleanup protecting key 1 evicts key 1 (it is gone from the Recency Index and
the Key Index, and its size was not subtracted) but the Size Index still
contains its pair (20, 1) after the call, because the fresh branch erased the
pair (20, 0) instead: the protected entry is not removed from all three
indices. -/
theorem claim_C1_counterexample :
    applyOps (initCache 40 1000 5 0) protectedPairOps = some protectedPairState ∧
    cleanup protectedPairState 0 (some 1) =
      some (CleanupRes.done protectedPairPost [102]) ∧
    mapLookup protectedPairPost.mElementMap 1 = none ∧
    1 ∉ protectedPairPost.mElementList ∧
    (20, 1) ∈ protectedPairPost.mElementSizeMap := by decide

/-- Claim C5 (amended): for a key already present, an update whose resulting
total stays at or below the hard limit leaves exactly one entry for the key in
the Key Index, carrying the new size and timestamp, at the tail of the Recency
Index, and no cleanup runs; and the locked mutation itself always succeeds and
records the requested size, whatever the size argument. -/
theorem claim_C5 :
    (∀ (s : LRUCache) (key pid : Nat) (alive : Bool) (size now : Int),
      s.mElementList.Nodup → (mapKeys s.mElementMap).Nodup →
      (mapLookup s.mElementMap key).isSome →
      (updateLocked s key pid alive size now).mTotalSize ≤ s.mMaxSizeHardLimit →
      updateElement s key pid alive size now =
        some (CleanupRes.done (updateLocked s key pid alive size now) []) ∧
      (∃ e, mapLookup (updateLocked s key pid alive size now).mElementMap key = some e ∧
        e.mElementSize = size ∧ e.mLastAccessTime = now) ∧
      (updateLocked s key pid alive size now).mElementList.getLast? = some key ∧
      (updateLocked s key pid alive size now).mElementList.count key = 1 ∧
      (mapKeys (updateLocked s key pid alive size now).mElementMap).count key = 1) ∧
    (∀ (s : LRUCache) (key pid : Nat) (alive : Bool) (size now : Int),
      ∃ e, mapLookup (updateLocked s key pid alive size now).mElementMap key = some e ∧
        e.mElementSize = size) := by
  constructor
  · intro s key pid alive size now hL hM hsome hhard
    obtain ⟨old, hold⟩ := Option.isSome_iff_exists.mp hsome
    have hconf := updateLocked_config s key pid alive size now
    have hno : ¬ ((updateLocked s key pid alive size now).mTotalSize >
        (updateLocked s key pid alive size now).mMaxSizeHardLimit) := by
      rw [hconf.2.1]
      exact not_lt.mpr hhard
    refine ⟨?_, updateLocked_lookup_new s key pid alive size now, ?_, ?_, ?_⟩
    · simp only [updateElement]
      rw [if_neg hno]
    · unfold updateLocked
      simp only [hold]
      exact List.getLast?_concat _
    · unfold updateLocked
      simp only [hold]
      rw [List.count_append, List.count_eq_zero.mpr (not_mem_eraseKey_self hL)]
      simp
    · unfold updateLocked
      simp only [hold]
      rw [mapKeys_mapSet]
      exact List.count_eq_one_of_mem hM (mapLookup_isSome_iff.mp hsome)
  · intro s key pid alive size now
    obtain ⟨e, h1, h2, _⟩ := updateLocked_lookup_new s key pid alive size now
    exact ⟨e, h1, h2⟩

/-- Witness for claim C5: updating the present key 0 to size 30 at time 2
(total 30, below the hard limit 100) leaves one entry with the new size and
timestamp at the recency tail. -/
theorem claim_C5_witness :
    updateElement selfEvictMid 0 100 true 30 2 =
      some (CleanupRes.done (updateLocked selfEvictMid 0 100 true 30 2) []) ∧
    (∃ e, mapLookup (updateLocked selfEvictMid 0 100 true 30 2).mElementMap 0 = some e ∧
      e.mElementSize = 30 ∧ e.mLastAccessTime = 2) ∧
    (updateLocked selfEvictMid 0 100 true 30 2).mElementList.getLast? = some 0 ∧
    (updateLocked selfEvictMid 0 100 true 30 2).mElementList.count 0 = 1 ∧
    (mapKeys (updateLocked selfEvictMid 0 100 true 30 2).mElementMap).count 0 = 1 :=
  claim_C5.1 selfEvictMid 0 100 true 30 2 (by decide) (by decide) (by decide) (by decide)

/-- Counterexample to claim C5 as stated: updating the present key 0 to size
200 pushes the total to 200, over the hard limit 100, and the synchronous
cleanup protecting key 0 evicts it, so afterwards the Key Index holds no entry
at all for the key, not exactly one entry with the latest size at the tail. -/
theorem claim_C5_counterexample :
    applyOps (initCache 50 100 5 0) [CacheOp.update 0 100 true 20 0] = some selfEvictMid ∧
    updateElement selfEvictMid 0 100 true 200 1 =
      some (CleanupRes.done selfEvictPost []) ∧
    mapLookup selfEvictPost.mElementMap 0 = none ∧
    selfEvictPost.mElementList = [] ∧
    selfEvictPost.mTotalSize = 200 := by decide

/-- Claim C8: for a present key, two successive gets with no intervening
operation return the same payload both times and leave mTotalSize unchanged;
and a get on an absent key returns the not-found result and does not change
the state. -/
theorem claim_C8 :
    (∀ (s : LRUCache) (key : Nat) (now1 now2 : Int) (e : LRUCacheElement),
      mapLookup s.mElementMap key = some e →
      (getElement s key now1).1 = (getElement (getElement s key now1).2 key now2).1 ∧
      (getElement s key now1).2.mTotalSize = s.mTotalSize ∧
      (getElement (getElement s key now1).2 key now2).2.mTotalSize = s.mTotalSize) ∧
    (∀ (s : LRUCache) (key : Nat) (now : Int),
      mapLookup s.mElementMap key = none → getElement s key now = (none, s)) := by
  constructor
  · intro s key now1 now2 e h
    have h1 : mapLookup (mapSet s.mElementMap key { e with mLastAccessTime := now1 }) key
        = some { e with mLastAccessTime := now1 } :=
      mapLookup_mapSet_self _ (by rw [h]; rfl)
    refine ⟨?_, ?_, ?_⟩
    · simp only [getElement, h, h1]
    · simp only [getElement, h]
    · simp only [getElement, h, h1]
  · intro s key now h
    simp only [getElement, h]

/-- Witness for claim C8: two gets of the present key 0 both return payload
100 and leave the total at 20. -/
theorem claim_C8_witness :
    (getElement selfEvictMid 0 3).1 = (getElement (getElement selfEvictMid 0 3).2 0 4).1 ∧
    (getElement selfEvictMid 0 3).2.mTotalSize = selfEvictMid.mTotalSize ∧
    (getElement (getElement selfEvictMid 0 3).2 0 4).2.mTotalSize =
      selfEvictMid.mTotalSize :=
  claim_C8.1 selfEvictMid 0 3 4 ⟨20, 0, 100, true⟩ (by decide)

end LRUModel
